import Mathlib

/-!
# Employee attendance system: verification of the attendance engine

Shallow embedding of the attendance lifecycle and aggregation logic of the
Employee_attendance_system repository, together with theorems checking the
natural-language specification against it.

Conventions of the embedding:
* JavaScript timestamps (`Date.getTime()`) are epoch milliseconds, modelled
  as `ℤ`.  A wall-clock instant additionally carries the fixed offset of the
  local timezone in minutes (`Date.getHours` reads the local clock, while
  `Date.toISOString` reads UTC).
* JavaScript numbers appearing in the attendance arithmetic are modelled as
  exact rationals `ℚ`; `Math.round` is `⌊x + 1/2⌋`.
* A JavaScript division whose divisor is `0` produces no finite number
  (`NaN` or `±Infinity`); such a result is modelled as `none : Option ℚ`.
* Calendar dates stored as `YYYY-MM-DD` strings are modelled by their day
  index (days since the epoch, `ℤ`); the code only ever compares these
  strings for equality and steps them by whole days.
* Text processed by the CSV exporter is modelled as `List Char`.
-/

namespace AttendanceSystem

/-- Attendance status vocabulary of the system
(`'present' | 'absent' | 'late' | 'half-day'`). -/
inductive Status where
  | present
  | absent
  | late
  | halfDay
deriving DecidableEq, Repr

/-- Role vocabulary (`'employee' | 'manager'`). -/
inductive Role where
  | employee
  | manager
deriving DecidableEq, Repr

/-- A wall-clock instant: epoch milliseconds together with the fixed offset
(minutes ahead of UTC) of the local timezone in which the browser runs. -/
structure Instant where
  ms : ℤ
  tzOffsetMin : ℤ
deriving DecidableEq, Repr

/-- Milliseconds of the local clock (UTC milliseconds shifted by the zone
offset). -/
def Instant.localMs (t : Instant) : ℤ := t.ms + t.tzOffsetMin * 60000

/-- `Date.prototype.getHours`: the hour-of-day (0..23) of the local clock. -/
def Instant.getHours (t : Instant) : ℤ := t.localMs.fdiv 3600000 % 24

/-- The calendar-day index produced by `toISOString().split('T')[0]`:
the UTC calendar date of the instant. -/
def Instant.utcDayIndex (t : Instant) : ℤ := t.ms.fdiv 86400000

/-- The calendar-day index of the local calendar date of the instant. -/
def Instant.localDayIndex (t : Instant) : ℤ := t.localMs.fdiv 86400000

/-- One row of the `attendance` table (src/lib/supabase.ts).  The stored
`date` string is modelled by its day index; timestamps by epoch ms. -/
structure AttendanceRecord where
  user_id : String
  date : ℤ
  check_in_time : Option ℤ
  check_out_time : Option ℤ
  status : Status
  total_hours : ℚ
deriving DecidableEq, Repr

/-- `Math.round`: round half toward positive infinity. -/
def jsRound (q : ℚ) : ℤ := ⌊q + 1 / 2⌋

/-- Rounding to two decimal places as the spec words it:
`round(x * 100) / 100`. -/
def round2 (q : ℚ) : ℚ := (jsRound (q * 100) : ℚ) / 100

/-- `handleCheckIn` (EmployeeDashboard, src/unnamed/part_001 lines 67-90):
inserts a record whose `date` is the UTC ISO date of `now`, whose
`check_in_time` is `now`, and whose status is `'late'` when
`now.getHours() >= 9` and `'present'` otherwise.  `check_out_time` is left
null and `total_hours` takes the store default `0`. -/
def handleCheckIn (userId : String) (now : Instant) : AttendanceRecord :=
  { user_id := userId
    date := now.utcDayIndex
    check_in_time := some now.ms
    check_out_time := none
    status := if 9 ≤ now.getHours then Status.late else Status.present
    total_hours := 0 }

/-- `handleCheckOut` (EmployeeDashboard, src/unnamed/part_001 lines 92-113):
sets `check_out_time` to now and `total_hours` to
`Math.round(((now - check_in) / (1000*60*60)) * 100) / 100`, with no check
on the sign of the duration.  The code dereferences `check_in_time!`; a
record without a check-in time is returned unchanged here (the UI cannot
reach check-out without a today-record). -/
def handleCheckOut (rec : AttendanceRecord) (nowMs : ℤ) : AttendanceRecord :=
  match rec.check_in_time with
  | none => rec
  | some cin =>
    { rec with
      check_out_time := some nowMs
      total_hours :=
        (jsRound (((nowMs - cin : ℤ) : ℚ) / (1000 * 60 * 60) * 100) : ℚ) / 100 }

/-- A JavaScript division, with `none` standing for the non-finite result
(`NaN`/`±Infinity`) produced when the divisor is `0`. -/
def jsDivQ (a b : ℚ) : Option ℚ := if b = 0 then none else some (a / b)

/-- `MonthlyPercentage` as worded by the spec (§4.3):
`whole == 0 ? 0 : round(100 * part / whole)`.  The source has no function
of this name; this definition is the spec side of the refinement claims
about the inline percentage expressions below. -/
def monthlyPercentage (part whole : ℕ) : ℤ :=
  if whole = 0 then 0 else jsRound (100 * (part : ℚ) / (whole : ℚ))

/-- The today-attendance percentage display
(ManagerDashboard.tsx lines 138-140):
`totalEmployees > 0 ? Math.round((todayPresent / totalEmployees) * 100) : 0`. -/
def todayAttendancePct (present total : ℕ) : ℤ :=
  if 0 < total then jsRound (((present : ℚ) / (total : ℚ)) * 100) else 0

/-- The per-department percentage display
(ManagerDashboard.tsx lines 213-215): `Math.round((present / total) * 100)`
with no guard on `total`. -/
def deptPct (present total : ℕ) : Option ℤ :=
  (jsDivQ (present : ℚ) (total : ℚ)).map (fun q => jsRound (q * 100))

/-- The per-status counts and total-hours sum of the employee dashboard
(`stats` in `loadDashboardData`, src/unnamed/part_001 lines 42-49). -/
structure MonthlyStats where
  present : ℕ
  absent : ℕ
  late : ℕ
  totalHours : ℚ
deriving DecidableEq, Repr

/-- `loadDashboardData`'s aggregation (src/unnamed/part_001 lines 42-49):
each status count filters the fetched records by that status, and
`totalHours` is `reduce((sum, r) => sum + (r.total_hours || 0), 0)`
(`|| 0` only replaces a null value, which the model's total `ℚ` field
cannot hold). -/
def monthlyStats (monthData : List AttendanceRecord) : MonthlyStats :=
  { present := (monthData.filter (fun r => r.status = Status.present)).length
    absent := (monthData.filter (fun r => r.status = Status.absent)).length
    late := (monthData.filter (fun r => r.status = Status.late)).length
    totalHours := monthData.foldl (fun sum r => sum + r.total_hours) 0 }

/-- One bucket of the manager dashboard's weekly trend
(ManagerDashboard.tsx lines 65-76).  The day label rendered from
`toLocaleDateString` is presentation; the bucket is identified here by its
calendar-day index. -/
structure TrendBucket where
  day : ℤ
  present : ℕ
  absent : ℤ
deriving DecidableEq, Repr

/-- The body of one iteration of the weekly-trend loop
(ManagerDashboard.tsx lines 66-76): the records of calendar day `d` are
selected by date equality, `present` counts those with status `present` or
`late`, and `absent` is `totalEmployees - dayData.length` irrespective of
the statuses of that day's records. -/
def trendDayBucket (records : List AttendanceRecord) (totalEmployees : ℕ)
    (d : ℤ) : TrendBucket :=
  let dayData := records.filter (fun r => r.date = d)
  { day := d
    present :=
      (dayData.filter
        (fun r => r.status = Status.present ∨ r.status = Status.late)).length
    absent := (totalEmployees : ℤ) - (dayData.length : ℤ) }

/-- The weekly-trend loop (ManagerDashboard.tsx lines 65-76):
`for (let i = 6; i >= 0; i--)` pushes the bucket of the day `i` days before
the end date, so the buckets run oldest first over the 7 calendar days
ending at `endDay` inclusive. -/
def weeklyTrend (records : List AttendanceRecord) (totalEmployees : ℕ)
    (endDay : ℤ) : List TrendBucket :=
  (List.range 7).reverse.map
    (fun i => trendDayBucket records totalEmployees (endDay - (i : ℤ)))

/-- A profile row (src/lib/supabase.ts), restricted to the fields the
aggregations read. -/
structure Profile where
  id : String
  name : String
  role : Role
  employee_id : String
  department : String
deriving DecidableEq, Repr

/-- One department bucket of the manager dashboard
(ManagerDashboard.tsx lines 78-94). -/
structure DeptStat where
  department : String
  present : ℕ
  total : ℕ
deriving DecidableEq, Repr

/-- `p.department || 'Unassigned'`: an empty department string is grouped
under the sentinel bucket. -/
def deptKey (d : String) : String := if d = "" then "Unassigned" else d

/-- One iteration of the department rollup loop
(ManagerDashboard.tsx lines 79-89) on the insertion-ordered map, modelled
as an association list: a missing department is first inserted with
`{present: 0, total: 0}`, then `total` is incremented and `present` is
incremented when the employee's id is in the present set. -/
def bumpDept (acc : List DeptStat) (dept : String) (isPresent : Bool) :
    List DeptStat :=
  match acc with
  | [] => [{ department := dept, present := if isPresent then 1 else 0, total := 1 }]
  | s :: rest =>
    if s.department = dept then
      { s with
        present := s.present + (if isPresent then 1 else 0)
        total := s.total + 1 } :: rest
    else s :: bumpDept rest dept isPresent

/-- The department rollup (`departmentStats` in `loadDashboardStats`,
ManagerDashboard.tsx lines 78-94): profiles with role `employee` are
folded into per-department buckets, counting as present those whose id is
in the present-id set. -/
def departmentStats (profiles : List Profile) (presentIds : List String) :
    List DeptStat :=
  (profiles.filter (fun p => p.role = Role.employee)).foldl
    (fun acc p => bumpDept acc (deptKey p.department) (presentIds.contains p.id))
    []

/-- Gregorian leap-year rule, as implemented by the proleptic-Gregorian
JavaScript `Date`. -/
def isLeapYear (y : ℕ) : Bool := (y % 4 == 0 && y % 100 != 0) || y % 400 == 0

/-- `new Date(year, month + 1, 0).getDate()`: the number of days of the
0-based month `m` of year `y` (day 0 of the next month is the last day of
this month). -/
def daysInMonth (y m : ℕ) : ℕ :=
  if m = 1 then (if isLeapYear y then 29 else 28)
  else if m = 3 ∨ m = 5 ∨ m = 8 ∨ m = 10 then 30
  else 31

/-- Sakamoto month offsets for the weekday computation, indexed by the
0-based month. -/
def monthOffsetTable : List ℕ := [0, 3, 2, 5, 0, 3, 5, 1, 4, 6, 2, 4]

/-- `new Date(year, month, 1).getDay()`: the weekday (0 = Sunday) of the
first day of the 0-based month `m` of year `y`, via Sakamoto's congruence
(the `- y / 100` term is taken as `+ 6 * (y / 100)` modulo 7 to stay in
`ℕ`).  Checked below against known calendar dates. -/
def firstWeekday (y m : ℕ) : ℕ :=
  let yy := if m < 2 then y - 1 else y
  (yy + yy / 4 + 6 * (yy / 100) + yy / 400 + monthOffsetTable.getD m 0 + 1) % 7

/-- The first loop of `getDaysInMonth` (TeamCalendar.tsx lines 50-53,
src/unnamed/part_003 lines 53-56): push `null` once per leading blank. -/
def pushNulls : ℕ → List (Option ℕ) → List (Option ℕ)
  | 0, days => days
  | k + 1, days => pushNulls k (days ++ [none])

/-- The second loop of `getDaysInMonth` (TeamCalendar.tsx lines 54-56,
src/unnamed/part_003 lines 57-59): push the day numbers `i, i+1, ...`,
`k` of them. -/
def pushDays : ℕ → ℕ → List (Option ℕ) → List (Option ℕ)
  | 0, _, days => days
  | k + 1, i, days => pushDays k (i + 1) (days ++ [some i])

/-- `getDaysInMonth` (TeamCalendar.tsx lines 42-58 and
src/unnamed/part_003 lines 45-61): an array of `startingDayOfWeek` nulls
followed by the day numbers `1 .. daysInMonth`. -/
def getDaysInMonth (y m : ℕ) : List (Option ℕ) :=
  pushDays (daysInMonth y m) 1 (pushNulls (firstWeekday y m) [])

/-- JavaScript `Array.prototype.join(sep)` over strings modelled as
character lists. -/
def joinSep (sep : List Char) : List (List Char) → List Char
  | [] => []
  | [x] => x
  | x :: y :: xs => x ++ sep ++ joinSep sep (y :: xs)

/-- The quoting of one CSV field (src/unnamed/part_002 line 296):
the template literal wraps the cell text in double quotes, with no escaping
of any character of the cell. -/
def quoteCell (cell : List Char) : List Char := '"' :: (cell ++ ['"'])

/-- The CSV column headers (src/unnamed/part_002 lines 272-281). -/
def csvHeaderCells : List (List Char) :=
  ["Employee Name".data, "Employee ID".data, "Department".data, "Date".data,
   "Check In Time".data, "Check Out Time".data, "Total Hours".data,
   "Status".data]

/-- One emitted record row (src/unnamed/part_002 line 296): every field
quoted, fields joined with commas. -/
def csvRowOfCells (cells : List (List Char)) : List Char :=
  joinSep [','] (cells.map quoteCell)

/-- `exportToCSV` (src/unnamed/part_002 lines 271-297): the unquoted
header line followed by the quoted record rows, joined with newlines.  The
projection of a record-with-profile to its display cells (lines 283-292)
yields plain text cells; the emission is modelled over those cell texts. -/
def exportToCSV (rows : List (List (List Char))) : List Char :=
  joinSep ['\n'] (joinSep [','] csvHeaderCells :: rows.map csvRowOfCells)

/-- Scanner mode of the standard CSV parser: outside any quotes, inside a
quoted field, or just past a closing quote (where a second quote denotes an
escaped quote character). -/
inductive CSVMode where
  | plain
  | quoted
  | closed
deriving DecidableEq, Repr

/-- Modelled from the spec: the "standard CSV parser" of the round-trip
property (§8), absent from the repository itself.  A streaming RFC
4180-style scanner, lenient on malformed input: `fld` is the field
collected so far, `row` the finished fields of the current row, `rows` the
finished rows. -/
def parseCSVAux : List Char → CSVMode → List Char → List (List Char) →
    List (List (List Char)) → List (List (List Char))
  | [], _, fld, row, rows => rows ++ [row ++ [fld]]
  | c :: rest, CSVMode.quoted, fld, row, rows =>
    if c = '"' then parseCSVAux rest CSVMode.closed fld row rows
    else parseCSVAux rest CSVMode.quoted (fld ++ [c]) row rows
  | c :: rest, CSVMode.closed, fld, row, rows =>
    if c = '"' then parseCSVAux rest CSVMode.quoted (fld ++ ['"']) row rows
    else if c = ',' then parseCSVAux rest CSVMode.plain [] (row ++ [fld]) rows
    else if c = '\n' then
      parseCSVAux rest CSVMode.plain [] [] (rows ++ [row ++ [fld]])
    else parseCSVAux rest CSVMode.plain (fld ++ [c]) row rows
  | c :: rest, CSVMode.plain, fld, row, rows =>
    if c = '"' then parseCSVAux rest CSVMode.quoted fld row rows
    else if c = ',' then parseCSVAux rest CSVMode.plain [] (row ++ [fld]) rows
    else if c = '\n' then
      parseCSVAux rest CSVMode.plain [] [] (rows ++ [row ++ [fld]])
    else parseCSVAux rest CSVMode.plain (fld ++ [c]) row rows

/-- Parse a CSV text into its rows of field values. -/
def parseCSV (s : List Char) : List (List (List Char)) :=
  parseCSVAux s CSVMode.plain [] [] []

end AttendanceSystem

namespace AttendanceSystem

/-- C1: for every check-in instant, the automatically assigned status is
`late` exactly when the local hour-of-day is ≥ 9 and `present` exactly when
it is < 9; the automatic path never yields `absent` or `half-day`.  In
particular a check-in at local time 8:59:59 (hour 8) is `present` and one
at 9:00:00 (hour 9) is `late`, checked here on the concrete instants
2025-01-01T08:59:59 and 2025-01-01T09:00:00, both in UTC and in a +05:30
zone. -/
theorem checkIn_status_rule (u : String) (now : Instant) :
    ((handleCheckIn u now).status = Status.late ↔ 9 ≤ now.getHours)
      ∧ ((handleCheckIn u now).status = Status.present ↔ now.getHours < 9)
      ∧ (handleCheckIn u now).status ≠ Status.absent
      ∧ (handleCheckIn u now).status ≠ Status.halfDay
      ∧ (handleCheckIn u ⟨1735721999000, 0⟩).status = Status.present
      ∧ (handleCheckIn u ⟨1735722000000, 0⟩).status = Status.late
      ∧ (handleCheckIn u ⟨1735702199000, 330⟩).status = Status.present
      ∧ (handleCheckIn u ⟨1735702200000, 330⟩).status = Status.late := by
  refine ⟨?_, ?_, ?_, ?_, ?_, ?_, ?_, ?_⟩ <;>
    simp only [handleCheckIn] <;> first
      | decide
      | (split <;> simp_all)

/-- C2: whenever the record being checked out has a check-in time, check-out
sets `check_out_time` to the check-out instant and `total_hours` to the
elapsed milliseconds divided by 3600000 (hours), rounded to two decimal
places; concretely, check-in 09:00:00Z and check-out 17:30:00Z of the same
day yield `total_hours = 8.5`. -/
theorem checkOut_total_hours (rec : AttendanceRecord) (cin nowMs : ℤ)
    (h : rec.check_in_time = some cin) :
    (handleCheckOut rec nowMs).check_out_time = some nowMs
      ∧ (handleCheckOut rec nowMs).total_hours
          = round2 (((nowMs : ℚ) - (cin : ℚ)) / 3600000)
      ∧ (handleCheckOut
            { user_id := "e1", date := 20089, check_in_time := some 1735722000000
              check_out_time := none, status := Status.present, total_hours := 0 }
            1735752600000).total_hours = 17 / 2 := by
  refine ⟨?_, ?_, by norm_num [handleCheckOut, jsRound]⟩
  · simp [handleCheckOut, h]
  · simp only [handleCheckOut, h, round2]
    norm_num

/-- Witness for `checkOut_total_hours` at a concrete record: check-in at
epoch ms 0, check-out one hour later gives exactly one hour. -/
theorem checkOut_total_hours_witness :
    (({ user_id := "e1", date := 0, check_in_time := some 0,
        check_out_time := none, status := Status.present,
        total_hours := 0 } : AttendanceRecord).check_in_time = some 0)
      ∧ (handleCheckOut
          { user_id := "e1", date := 0, check_in_time := some 0,
            check_out_time := none, status := Status.present, total_hours := 0 }
          3600000).total_hours = round2 (((3600000 : ℚ) - (0 : ℚ)) / 3600000) :=
  ⟨rfl, (checkOut_total_hours _ 0 3600000 rfl).2.1⟩

/-- C3 (divergence witness): the code places no guard on the sign of the
duration.  For a record checked in at 10:00:00Z, a check-out instant of
09:00:00Z the same day — one hour before check-in — is silently stored:
the update succeeds and writes `total_hours = -1`, a negative value, with
no `InvalidDuration` failure anywhere in the code. -/
theorem checkOut_negative_silently_stored :
    ((handleCheckOut
        { user_id := "e1", date := 20089, check_in_time := some 1735725600000
          check_out_time := none, status := Status.present, total_hours := 0 }
        1735722000000).total_hours = -1)
      ∧ ((handleCheckOut
          { user_id := "e1", date := 20089, check_in_time := some 1735725600000
            check_out_time := none, status := Status.present, total_hours := 0 }
          1735722000000).check_out_time = some 1735722000000) := by
  constructor <;> norm_num [handleCheckOut, jsRound]

/-- C9: the stored `date` of a fresh check-in record is the UTC calendar
day of the instant (ISO-string truncation) while the status is derived from
the local hour; and there are instants in a non-UTC zone — e.g.
2025-01-01T19:00Z in a +05:30 zone, where the local calendar date is
already Jan 2 — whose stored date differs from the local calendar date of
the check-in. -/
theorem checkIn_date_is_utc_not_local (u : String) (now : Instant) :
    (handleCheckIn u now).date = now.utcDayIndex
      ∧ (handleCheckIn u now).status
          = (if 9 ≤ now.getHours then Status.late else Status.present)
      ∧ ∃ t : Instant, t.tzOffsetMin ≠ 0
          ∧ (handleCheckIn u t).date ≠ t.localDayIndex := by
  refine ⟨rfl, rfl, ⟨1735758000000, 330⟩, by decide, ?_⟩
  simp only [handleCheckIn]
  decide

/-- Folding `+ total_hours` over a list is the initial value plus the sum
of the `total_hours` column. -/
theorem foldl_add_totalHours (l : List AttendanceRecord) (init : ℚ) :
    l.foldl (fun sum r => sum + r.total_hours) init
      = init + (l.map (fun r => r.total_hours)).sum := by
  induction l generalizing init with
  | nil => simp
  | cons a t ih => simp [ih, add_assoc]

/-- A day bucket of the weekly trend depends only on the multiset of
records. -/
theorem trendDayBucket_perm {l l' : List AttendanceRecord}
    (h : l.Perm l') (tec : ℕ) (d : ℤ) :
    trendDayBucket l tec d = trendDayBucket l' tec d := by
  simp only [trendDayBucket, TrendBucket.mk.injEq]
  refine ⟨trivial, ((h.filter _).filter _).length_eq, ?_⟩
  rw [(h.filter _).length_eq]

/-- C4: the weekly trend has exactly 7 buckets; bucket `k` (0-based,
oldest first) is the bucket of the calendar day `endDay - 6 + k`; and the
bucket of a day `d` counts as `present` the records of day `d` with status
`present` or `late`, while `absent` is the headcount minus the number of
records of day `d` irrespective of their status fields. -/
theorem weeklyTrend_spec (records : List AttendanceRecord) (tec : ℕ)
    (endDay : ℤ) :
    (weeklyTrend records tec endDay).length = 7
      ∧ (∀ k : ℕ, k < 7 →
          (weeklyTrend records tec endDay)[k]? =
            some (trendDayBucket records tec (endDay - 6 + (k : ℤ))))
      ∧ (∀ d : ℤ, trendDayBucket records tec d =
          { day := d
            present := records.countP (fun r =>
              decide (r.date = d) &&
                decide (r.status = Status.present ∨ r.status = Status.late))
            absent :=
              (tec : ℤ) - (records.countP (fun r => decide (r.date = d)) : ℤ) }) := by
  refine ⟨rfl, ?_, ?_⟩
  · intro k hk
    interval_cases k <;>
      exact congrArg some
        (congrArg (trendDayBucket records tec) (by push_cast; ring))
  · intro d
    simp only [trendDayBucket, TrendBucket.mk.injEq,
      List.countP_eq_length_filter, List.filter_filter]
    refine ⟨trivial, ?_, trivial⟩
    exact congrArg List.length (List.filter_congr (fun a _ => Bool.and_comm _ _))

/-- Witness for `weeklyTrend_spec`: the middle bucket of a concrete trend.
With headcount 5 and three records on the bucket's day — all three carrying
status `absent` — the bucket still reports `absent = 5 - 3 = 2`. -/
theorem weeklyTrend_spec_witness :
    (3 : ℕ) < 7
      ∧ (weeklyTrend
          [⟨"u1", 7, some 0, none, Status.absent, 0⟩,
           ⟨"u2", 7, some 0, none, Status.absent, 0⟩,
           ⟨"u3", 7, some 0, none, Status.absent, 0⟩] 5 10)[3]? =
        some (trendDayBucket
          [⟨"u1", 7, some 0, none, Status.absent, 0⟩,
           ⟨"u2", 7, some 0, none, Status.absent, 0⟩,
           ⟨"u3", 7, some 0, none, Status.absent, 0⟩] 5 (10 - 6 + (3 : ℕ)))
      ∧ trendDayBucket
          [⟨"u1", 7, some 0, none, Status.absent, 0⟩,
           ⟨"u2", 7, some 0, none, Status.absent, 0⟩,
           ⟨"u3", 7, some 0, none, Status.absent, 0⟩] 5 7
        = { day := 7, present := 0, absent := 2 } :=
  ⟨by decide,
   (weeklyTrend_spec _ 5 10).2.1 3 (by decide),
   by decide⟩

/-- C8: the dashboard aggregations — the per-status counts with total-hours
sum, and the weekly trend — produce the same output on any permutation of
the input record sequence. -/
theorem aggregations_order_independent (l l' : List AttendanceRecord)
    (h : l.Perm l') (tec : ℕ) (endDay : ℤ) :
    monthlyStats l = monthlyStats l'
      ∧ weeklyTrend l tec endDay = weeklyTrend l' tec endDay := by
  constructor
  · simp only [monthlyStats, MonthlyStats.mk.injEq]
    refine ⟨(h.filter _).length_eq, (h.filter _).length_eq,
      (h.filter _).length_eq, ?_⟩
    rw [foldl_add_totalHours, foldl_add_totalHours, (h.map _).sum_eq]
  · simp only [weeklyTrend]
    exact List.map_congr_left (fun i _ => trendDayBucket_perm h tec _)

/-- Witness for `aggregations_order_independent`: two concrete records
listed in both orders. -/
theorem aggregations_order_independent_witness :
    ([(⟨"u1", 0, some 0, none, Status.present, 8⟩ : AttendanceRecord),
      ⟨"u2", 0, some 0, none, Status.late, 17 / 2⟩].Perm
        [⟨"u2", 0, some 0, none, Status.late, 17 / 2⟩,
         ⟨"u1", 0, some 0, none, Status.present, 8⟩])
      ∧ monthlyStats
          [⟨"u1", 0, some 0, none, Status.present, 8⟩,
           ⟨"u2", 0, some 0, none, Status.late, 17 / 2⟩]
        = monthlyStats
          [⟨"u2", 0, some 0, none, Status.late, 17 / 2⟩,
           ⟨"u1", 0, some 0, none, Status.present, 8⟩] :=
  ⟨List.Perm.swap _ _ _,
   (aggregations_order_independent _ _ (List.Perm.swap _ _ _) 0 0).1⟩

/-- `bumpDept` preserves the bucket invariant `1 ≤ total ∧ present ≤ total`. -/
theorem bumpDept_invariant (acc : List DeptStat) (dept : String) (b : Bool)
    (hinv : ∀ s ∈ acc, 1 ≤ s.total ∧ s.present ≤ s.total) :
    ∀ s ∈ bumpDept acc dept b, 1 ≤ s.total ∧ s.present ≤ s.total := by
  induction acc with
  | nil =>
    intro s hs
    simp only [bumpDept, List.mem_singleton] at hs
    subst hs
    cases b <;> simp
  | cons a t ih =>
    intro s hs
    simp only [bumpDept] at hs
    by_cases hd : a.department = dept
    · simp only [if_pos hd, List.mem_cons] at hs
      rcases hs with hs | hs
      · subst hs
        have := hinv a (by simp)
        cases b <;> simp <;> omega
      · exact hinv s (List.mem_cons_of_mem a hs)
    · simp only [if_neg hd, List.mem_cons] at hs
      rcases hs with hs | hs
      · subst hs
        exact hinv s (by simp)
      · exact ih (fun x hx => hinv x (List.mem_cons_of_mem a hx)) s hs

/-- The rollup fold preserves the bucket invariant from any starting
accumulator. -/
theorem rollup_fold_invariant (ps : List Profile) (presentIds : List String)
    (acc : List DeptStat)
    (hinv : ∀ s ∈ acc, 1 ≤ s.total ∧ s.present ≤ s.total) :
    ∀ s ∈ ps.foldl
        (fun acc p =>
          bumpDept acc (deptKey p.department) (presentIds.contains p.id)) acc,
      1 ≤ s.total ∧ s.present ≤ s.total := by
  induction ps generalizing acc with
  | nil => simpa using hinv
  | cons p t ih =>
    intro s hs
    simp only [List.foldl_cons] at hs
    exact ih _ (bumpDept_invariant acc _ _ hinv) s hs

/-- C10: every bucket of the department rollup has `total ≥ 1` (a bucket
exists only once an employee was folded into it) and `present ≤ total`;
consequently the unguarded per-department percentage
`Math.round((present / total) * 100)` never divides by zero on a rollup
bucket, and agrees with the guarded `MonthlyPercentage` form there. -/
theorem departmentStats_bucket_invariant (profiles : List Profile)
    (presentIds : List String) (s : DeptStat)
    (hs : s ∈ departmentStats profiles presentIds) :
    1 ≤ s.total ∧ s.present ≤ s.total
      ∧ deptPct s.present s.total = some (monthlyPercentage s.present s.total) := by
  have h := rollup_fold_invariant _ presentIds [] (by simp) s hs
  have ht : s.total ≠ 0 := by omega
  refine ⟨h.1, h.2, ?_⟩
  simp only [deptPct, jsDivQ, monthlyPercentage, Nat.cast_eq_zero, if_neg ht,
    Option.map_some']
  exact congrArg some (congrArg jsRound (by ring))

/-- Witness for `departmentStats_bucket_invariant`: the rollup of a single
engineering employee who is present. -/
theorem departmentStats_bucket_invariant_witness :
    ((⟨"Eng", 1, 1⟩ : DeptStat) ∈
        departmentStats [⟨"id1", "Ada", Role.employee, "EMP001", "Eng"⟩] ["id1"])
      ∧ (1 ≤ (⟨"Eng", 1, 1⟩ : DeptStat).total
          ∧ (⟨"Eng", 1, 1⟩ : DeptStat).present ≤ (⟨"Eng", 1, 1⟩ : DeptStat).total
          ∧ deptPct (⟨"Eng", 1, 1⟩ : DeptStat).present (⟨"Eng", 1, 1⟩ : DeptStat).total
              = some (monthlyPercentage (⟨"Eng", 1, 1⟩ : DeptStat).present
                  (⟨"Eng", 1, 1⟩ : DeptStat).total)) :=
  ⟨by decide,
   departmentStats_bucket_invariant
     [⟨"id1", "Ada", Role.employee, "EMP001", "Eng"⟩] ["id1"] _ (by decide)⟩

/-- C5 (amended): `MonthlyPercentage` is the guarded form — `0` when the
whole is `0`, `round(100 * part / whole)` otherwise — and the
today-attendance display uses exactly this guarded form; the per-department
display is unguarded but coincides with the guarded form whenever its
divisor is nonzero. -/
theorem monthlyPercentage_guarded (part whole : ℕ) :
    monthlyPercentage 0 0 = 0
      ∧ (whole = 0 → monthlyPercentage part whole = 0)
      ∧ (whole ≠ 0 →
          monthlyPercentage part whole
            = jsRound (100 * (part : ℚ) / (whole : ℚ)))
      ∧ todayAttendancePct part whole = monthlyPercentage part whole
      ∧ (whole ≠ 0 → deptPct part whole = some (monthlyPercentage part whole)) := by
  refine ⟨by simp [monthlyPercentage], fun h => by simp [monthlyPercentage, h],
    fun h => by simp [monthlyPercentage, h], ?_, fun h => ?_⟩
  · by_cases h : whole = 0
    · simp [todayAttendancePct, monthlyPercentage, h]
    · simp only [todayAttendancePct, monthlyPercentage, if_neg h,
        if_pos (Nat.pos_of_ne_zero h)]
      congr 1
      ring
  · simp only [deptPct, jsDivQ, monthlyPercentage, Nat.cast_eq_zero, if_neg h,
      Option.map_some']
    exact congrArg some (congrArg jsRound (by ring))

/-- Witness for `monthlyPercentage_guarded` at `part = 1`, `whole = 2`. -/
theorem monthlyPercentage_guarded_witness :
    ((2 : ℕ) ≠ 0) ∧ deptPct 1 2 = some (monthlyPercentage 1 2) :=
  ⟨by decide, (monthlyPercentage_guarded 1 2).2.2.2.2 (by decide)⟩

/-- C5 (counterexample): the per-department percentage display is not the
guarded form — at `present = 0`, `total = 0` the unguarded
`Math.round((present / total) * 100)` evaluates its division with a zero
divisor and produces no finite number, while the guarded form returns 0. -/
theorem deptPct_unguarded_at_zero :
    deptPct 0 0 ≠ some (monthlyPercentage 0 0)
      ∧ deptPct 0 0 = none ∧ monthlyPercentage 0 0 = 0 := by
  refine ⟨?_, ?_, ?_⟩ <;> simp [deptPct, jsDivQ, monthlyPercentage]

/-- The null-pushing loop appends exactly its count of nulls. -/
theorem pushNulls_eq (k : ℕ) (days : List (Option ℕ)) :
    pushNulls k days = days ++ List.replicate k none := by
  induction k generalizing days with
  | zero => simp [pushNulls]
  | succ n ih =>
    rw [pushNulls, ih, List.append_assoc]
    simp [List.replicate_succ]

/-- The day-pushing loop appends exactly the `k` consecutive day numbers
starting at `i`. -/
theorem pushDays_eq (k : ℕ) :
    ∀ (i : ℕ) (days : List (Option ℕ)),
      pushDays k i days = days ++ (List.range k).map (fun j => some (i + j)) := by
  induction k with
  | zero => intro i days; simp [pushDays]
  | succ n ih =>
    intro i days
    rw [pushDays, ih, List.append_assoc, List.range_succ_eq_map]
    simp only [List.map_cons, List.map_map, List.singleton_append, List.cons.injEq,
      List.append_cancel_left_eq]
    refine ⟨by simp, ?_⟩
    apply List.map_congr_left
    intro a _
    simp [Function.comp]
    omega

/-- C7: for every month, the calendar-grid function returns exactly
`firstWeekday` (the weekday index, 0 = Sunday, of the 1st of the month)
leading nulls followed by the day numbers `1 .. daysInMonth` in increasing
order and nothing else.  Anchor instances: October 2025 begins on a
Wednesday, so its grid is 3 nulls followed by 1..31; February 2024 (leap)
begins on a Thursday, 4 nulls followed by 1..29. -/
theorem getDaysInMonth_spec (y m : ℕ) (_hy : 1 ≤ y) (_hm : m < 12) :
    getDaysInMonth y m
        = List.replicate (firstWeekday y m) none
            ++ (List.range (daysInMonth y m)).map (fun i => some (i + 1))
      ∧ (getDaysInMonth y m).length = firstWeekday y m + daysInMonth y m
      ∧ getDaysInMonth 2025 9
          = List.replicate 3 none ++ (List.range 31).map (fun i => some (i + 1))
      ∧ getDaysInMonth 2024 1
          = List.replicate 4 none ++ (List.range 29).map (fun i => some (i + 1)) := by
  have key : ∀ y0 m0 : ℕ, getDaysInMonth y0 m0
      = List.replicate (firstWeekday y0 m0) none
          ++ (List.range (daysInMonth y0 m0)).map (fun i => some (i + 1)) := by
    intro y0 m0
    rw [getDaysInMonth, pushDays_eq, pushNulls_eq, List.nil_append]
    simp [add_comm]
  refine ⟨key y m, ?_, ?_, ?_⟩
  · rw [key y m]; simp
  · rw [key 2025 9]; rfl
  · rw [key 2024 1]; rfl

/-- Witness for `getDaysInMonth_spec` at October 2025. -/
theorem getDaysInMonth_spec_witness :
    ((1 : ℕ) ≤ 2025 ∧ (9 : ℕ) < 12)
      ∧ getDaysInMonth 2025 9
          = List.replicate (firstWeekday 2025 9) none
              ++ (List.range (daysInMonth 2025 9)).map (fun i => some (i + 1)) :=
  ⟨⟨by decide, by decide⟩, (getDaysInMonth_spec 2025 9 (by decide) (by decide)).1⟩

/-- Scanning quote-free characters inside a quoted field appends them to
the field. -/
theorem scanQuoted (cs : List Char) (h : '"' ∉ cs) (tail fld : List Char)
    (row : List (List Char)) (rows : List (List (List Char))) :
    parseCSVAux (cs ++ tail) CSVMode.quoted fld row rows
      = parseCSVAux tail CSVMode.quoted (fld ++ cs) row rows := by
  induction cs generalizing fld with
  | nil => simp
  | cons c cs ih =>
    have hc : ¬(c = '"') := fun e => h (by simp [e])
    rw [List.cons_append, parseCSVAux, if_neg hc, ih (fun hm => h (by simp [hm]))]
    simp

/-- Scanning characters that are neither quotes nor separators outside
quotes appends them to the field. -/
theorem scanPlainChars (cs : List Char)
    (h : ∀ c ∈ cs, c ≠ '"' ∧ c ≠ ',' ∧ c ≠ '\n') (tail fld : List Char)
    (row : List (List Char)) (rows : List (List (List Char))) :
    parseCSVAux (cs ++ tail) CSVMode.plain fld row rows
      = parseCSVAux tail CSVMode.plain (fld ++ cs) row rows := by
  induction cs generalizing fld with
  | nil => simp
  | cons c cs ih =>
    obtain ⟨h1, h2, h3⟩ := h c (by simp)
    rw [List.cons_append, parseCSVAux, if_neg h1, if_neg h2, if_neg h3,
      ih (fun x hx => h x (by simp [hx]))]
    simp

/-- Scanning one emitted quoted field from outside quotes consumes it into
the current field and leaves the scanner just past the closing quote. -/
theorem scanCell (cell : List Char) (h : '"' ∉ cell) (tail fld : List Char)
    (row : List (List Char)) (rows : List (List (List Char))) :
    parseCSVAux (quoteCell cell ++ tail) CSVMode.plain fld row rows
      = parseCSVAux tail CSVMode.closed (fld ++ cell) row rows := by
  have e : quoteCell cell ++ tail = '"' :: (cell ++ ('"' :: tail)) := by
    simp [quoteCell]
  rw [e, parseCSVAux, if_pos rfl, scanQuoted cell h, parseCSVAux, if_pos rfl]

/-- Scanner step: end of input flushes the pending field and row. -/
theorem stepEof (m : CSVMode) (fld : List Char) (row : List (List Char))
    (rows : List (List (List Char))) :
    parseCSVAux [] m fld row rows = rows ++ [row ++ [fld]] := by
  cases m <;> rfl

/-- Scanner step: a comma just past a closing quote ends the field. -/
theorem stepClosedComma (tail fld : List Char) (row : List (List Char))
    (rows : List (List (List Char))) :
    parseCSVAux (',' :: tail) CSVMode.closed fld row rows
      = parseCSVAux tail CSVMode.plain [] (row ++ [fld]) rows := by
  simp [parseCSVAux]

/-- Scanner step: a newline just past a closing quote ends the row. -/
theorem stepClosedNl (tail fld : List Char) (row : List (List Char))
    (rows : List (List (List Char))) :
    parseCSVAux ('\n' :: tail) CSVMode.closed fld row rows
      = parseCSVAux tail CSVMode.plain [] [] (rows ++ [row ++ [fld]]) := by
  simp [parseCSVAux]

/-- Scanner step: a comma outside quotes ends the field. -/
theorem stepPlainComma (tail fld : List Char) (row : List (List Char))
    (rows : List (List (List Char))) :
    parseCSVAux (',' :: tail) CSVMode.plain fld row rows
      = parseCSVAux tail CSVMode.plain [] (row ++ [fld]) rows := by
  simp [parseCSVAux]

/-- Scanner step: a newline outside quotes ends the row. -/
theorem stepPlainNl (tail fld : List Char) (row : List (List Char))
    (rows : List (List (List Char))) :
    parseCSVAux ('\n' :: tail) CSVMode.plain fld row rows
      = parseCSVAux tail CSVMode.plain [] [] (rows ++ [row ++ [fld]]) := by
  simp [parseCSVAux]

/-- Scanning one emitted record row terminated by a newline flushes the
row's cells. -/
theorem scanRowNl :
    ∀ (cells : List (List Char)), cells ≠ [] → (∀ c ∈ cells, '"' ∉ c) →
      ∀ (tail : List Char) (row : List (List Char))
        (rows : List (List (List Char))),
        parseCSVAux (csvRowOfCells cells ++ ('\n' :: tail))
            CSVMode.plain [] row rows
          = parseCSVAux tail CSVMode.plain [] [] (rows ++ [row ++ cells]) := by
  intro cells
  induction cells with
  | nil => intro h; exact absurd rfl h
  | cons c cs ih =>
    intro _ hq tail row rows
    cases cs with
    | nil =>
      rw [show csvRowOfCells [c] = quoteCell c from rfl,
        scanCell c (hq c (by simp)), stepClosedNl]
      simp
    | cons c2 cs2 =>
      have e : csvRowOfCells (c :: c2 :: cs2) ++ ('\n' :: tail)
          = quoteCell c ++ (',' :: (csvRowOfCells (c2 :: cs2) ++ ('\n' :: tail))) := by
        simp [csvRowOfCells, joinSep]
      rw [e, scanCell c (hq c (by simp)), stepClosedComma,
        ih (by simp) (fun x hx => hq x (by simp [hx])) tail _ rows]
      simp

/-- Scanning one emitted record row at the end of the input flushes the
row's cells. -/
theorem scanRowEof :
    ∀ (cells : List (List Char)), cells ≠ [] → (∀ c ∈ cells, '"' ∉ c) →
      ∀ (row : List (List Char)) (rows : List (List (List Char))),
        parseCSVAux (csvRowOfCells cells) CSVMode.plain [] row rows
          = rows ++ [row ++ cells] := by
  intro cells
  induction cells with
  | nil => intro h; exact absurd rfl h
  | cons c cs ih =>
    intro _ hq row rows
    cases cs with
    | nil =>
      rw [show csvRowOfCells [c] = quoteCell c ++ [] by simp [csvRowOfCells, joinSep],
        scanCell c (hq c (by simp)), stepEof]
      simp
    | cons c2 cs2 =>
      have e : csvRowOfCells (c :: c2 :: cs2)
          = quoteCell c ++ (',' :: csvRowOfCells (c2 :: cs2)) := by
        simp [csvRowOfCells, joinSep]
      rw [e, scanCell c (hq c (by simp)), stepClosedComma,
        ih (by simp) (fun x hx => hq x (by simp [hx])) _ rows]
      simp

/-- Scanning the unquoted header row terminated by a newline flushes the
header cells. -/
theorem scanPlainRowNl :
    ∀ (cells : List (List Char)), cells ≠ [] →
      (∀ cl ∈ cells, ∀ ch ∈ cl, ch ≠ '"' ∧ ch ≠ ',' ∧ ch ≠ '\n') →
      ∀ (tail : List Char) (row : List (List Char))
        (rows : List (List (List Char))),
        parseCSVAux (joinSep [','] cells ++ ('\n' :: tail))
            CSVMode.plain [] row rows
          = parseCSVAux tail CSVMode.plain [] [] (rows ++ [row ++ cells]) := by
  intro cells
  induction cells with
  | nil => intro h; exact absurd rfl h
  | cons c cs ih =>
    intro _ hq tail row rows
    cases cs with
    | nil =>
      rw [show joinSep [','] [c] = c from rfl,
        scanPlainChars c (hq c (by simp)), stepPlainNl]
      simp
    | cons c2 cs2 =>
      have e : joinSep [','] (c :: c2 :: cs2) ++ ('\n' :: tail)
          = c ++ (',' :: (joinSep [','] (c2 :: cs2) ++ ('\n' :: tail))) := by
        simp [joinSep]
      rw [e, scanPlainChars c (hq c (by simp)), stepPlainComma,
        ih (by simp) (fun x hx => hq x (by simp [hx])) tail _ rows]
      simp

/-- Scanning the unquoted header row at the end of the input flushes the
header cells. -/
theorem scanPlainRowEof :
    ∀ (cells : List (List Char)), cells ≠ [] →
      (∀ cl ∈ cells, ∀ ch ∈ cl, ch ≠ '"' ∧ ch ≠ ',' ∧ ch ≠ '\n') →
      ∀ (row : List (List Char)) (rows : List (List (List Char))),
        parseCSVAux (joinSep [','] cells) CSVMode.plain [] row rows
          = rows ++ [row ++ cells] := by
  intro cells
  induction cells with
  | nil => intro h; exact absurd rfl h
  | cons c cs ih =>
    intro _ hq row rows
    cases cs with
    | nil =>
      rw [show joinSep [','] [c] = c ++ [] by simp [joinSep],
        scanPlainChars c (hq c (by simp)), stepEof]
      simp
    | cons c2 cs2 =>
      have e : joinSep [','] (c :: c2 :: cs2)
          = c ++ (',' :: joinSep [','] (c2 :: cs2)) := by
        simp [joinSep]
      rw [e, scanPlainChars c (hq c (by simp)), stepPlainComma,
        ih (by simp) (fun x hx => hq x (by simp [hx])) _ rows]
      simp

/-- Scanning the emitted record rows accumulates exactly those rows. -/
theorem scanBody :
    ∀ (rs : List (List (List Char))), rs ≠ [] →
      (∀ r ∈ rs, r ≠ []) → (∀ r ∈ rs, ∀ c ∈ r, '"' ∉ c) →
      ∀ (rowsAcc : List (List (List Char))),
        parseCSVAux (joinSep ['\n'] (rs.map csvRowOfCells))
            CSVMode.plain [] [] rowsAcc
          = rowsAcc ++ rs := by
  intro rs
  induction rs with
  | nil => intro h; exact absurd rfl h
  | cons r rs2 ih =>
    intro _ hne hq rowsAcc
    cases rs2 with
    | nil =>
      rw [show joinSep ['\n'] ([r].map csvRowOfCells) = csvRowOfCells r from rfl,
        scanRowEof r (hne r (by simp)) (hq r (by simp))]
      simp
    | cons r2 rs3 =>
      have e : joinSep ['\n'] ((r :: r2 :: rs3).map csvRowOfCells)
          = csvRowOfCells r
              ++ ('\n' :: joinSep ['\n'] ((r2 :: rs3).map csvRowOfCells)) := by
        simp [joinSep]
      rw [e, scanRowNl r (hne r (by simp)) (hq r (by simp)),
        ih (by simp) (fun x hx => hne x (by simp [hx]))
          (fun x hx => hq x (by simp [hx]))]
      simp

/-- The header cells are nonempty and contain no quote, comma or newline
characters. -/
theorem csvHeaderCells_safe :
    csvHeaderCells ≠ []
      ∧ (∀ cl ∈ csvHeaderCells, ∀ ch ∈ cl, ch ≠ '"' ∧ ch ≠ ',' ∧ ch ≠ '\n') := by
  constructor
  · decide
  · decide

/-- C6 (amended): the export emits the header row and one all-quoted row
per record, and a standard CSV parse of the emitted text returns exactly
the header fields and the original field values, for every record list
whose rows are nonempty and whose field values contain no double-quote
character (values containing commas — or even newlines — are protected by
the quoting). -/
theorem exportToCSV_roundtrip (rows : List (List (List Char)))
    (hne : ∀ r ∈ rows, r ≠ []) (hq : ∀ r ∈ rows, ∀ c ∈ r, '"' ∉ c) :
    parseCSV (exportToCSV rows) = csvHeaderCells :: rows := by
  obtain ⟨hh1, hh2⟩ := csvHeaderCells_safe
  cases rows with
  | nil =>
    rw [show exportToCSV [] = joinSep [','] csvHeaderCells from rfl, parseCSV,
      scanPlainRowEof csvHeaderCells hh1 hh2]
    simp
  | cons r rs =>
    have e : exportToCSV (r :: rs)
        = joinSep [','] csvHeaderCells
            ++ ('\n' :: joinSep ['\n'] ((r :: rs).map csvRowOfCells)) := by
      simp [exportToCSV, joinSep]
    rw [parseCSV, e, scanPlainRowNl csvHeaderCells hh1 hh2,
      scanBody (r :: rs) (by simp) hne hq]
    simp

/-- Witness for `exportToCSV_roundtrip`: one record whose employee name
contains a comma round-trips exactly. -/
theorem exportToCSV_roundtrip_witness :
    ((∀ r ∈ [["Doe, Jane".data, "EMP001".data, "Eng".data, "2025-10-01".data,
        "9:00:00 AM".data, "5:30:00 PM".data, "8.5".data, "present".data]],
        r ≠ [])
      ∧ (∀ r ∈ [["Doe, Jane".data, "EMP001".data, "Eng".data, "2025-10-01".data,
          "9:00:00 AM".data, "5:30:00 PM".data, "8.5".data, "present".data]],
          ∀ c ∈ r, '"' ∉ c))
      ∧ parseCSV (exportToCSV
          [["Doe, Jane".data, "EMP001".data, "Eng".data, "2025-10-01".data,
            "9:00:00 AM".data, "5:30:00 PM".data, "8.5".data, "present".data]])
        = csvHeaderCells
            :: [["Doe, Jane".data, "EMP001".data, "Eng".data, "2025-10-01".data,
                 "9:00:00 AM".data, "5:30:00 PM".data, "8.5".data,
                 "present".data]] :=
  ⟨⟨by decide, by decide⟩,
   exportToCSV_roundtrip _ (by decide) (by decide)⟩

set_option maxRecDepth 8000 in
/-- C6 (counterexample): a field value containing a double quote does not
round-trip — the name `a"b` is emitted unescaped as `"a"b"`, which a
standard CSV parser does not read back as `a"b`. -/
theorem exportToCSV_quote_counterexample :
    parseCSV (exportToCSV
        [[['a', '"', 'b'], "EMP001".data, "Eng".data, "2025-10-01".data,
          "9:00:00 AM".data, "5:30:00 PM".data, "8.5".data, "present".data]])
      ≠ csvHeaderCells
          :: [[['a', '"', 'b'], "EMP001".data, "Eng".data, "2025-10-01".data,
               "9:00:00 AM".data, "5:30:00 PM".data, "8.5".data,
               "present".data]] := by
  decide

end AttendanceSystem
